import Mathlib

/-!
Verification of the snapshot-diff-and-sync engine of `src/main.py`.

The embedding follows the source closely:

* `Entry` is the value stored per playlist name in the persisted
  `snapshot_map.json` and in the in-run target snapshot map
  (`url`, `snapshot_id`, `track_count`, built in `get_all_playlists`).
* `SMap` is a Python dict from playlist name to `Entry`, modelled as an
  association list in insertion order; `lookupMap` is dict lookup /
  `dict.get`, and `setEntry` is dict assignment (replace in place if the
  key exists, append otherwise).
* `computeQueue` is the queue comprehension of `SpotdlClient.download`
  (lines 156-160 of `src/main.py`).
* The state store (`SpotifyClient.load_map` / `SpotifyClient.atomic_save`)
  is modelled over an explicit file system `FS` mapping paths to file
  contents, with `json.load` abstracted as a `parse` parameter (it either
  returns a map or raises, i.e. `Option SMap`) and `json.dump` abstracted
  as the injective printer `serializeMap` (sorted keys, as in
  `sort_keys=True`).
* The executor (`SpotdlClient.process_playlist` and the batch loop of
  `SpotdlClient.download`) is modelled as a trace-producing function; the
  outcome of each fetch attempt (the `spotdl.search`/`download_songs`
  call, classified by the `except` clause via the "429" / "83000" /
  "50000" substring checks) is supplied by a `fetch` oracle indexed by
  attempt number.
-/

/-- One playlist record, as built by `get_all_playlists` and as persisted
in `snapshot_map.json`. -/
structure Entry where
  url : String
  snapshot_id : String
  track_count : Nat
deriving DecidableEq, Repr

/-- A Python dict from playlist name to `Entry`, in insertion order. -/
abbrev SMap := List (String × Entry)

/-- Dict lookup (`m[n]` / `m.get(n)` / `n in m`). -/
def lookupMap (m : SMap) (n : String) : Option Entry :=
  match m with
  | [] => none
  | p :: rest => if p.1 = n then some p.2 else lookupMap rest n

/-- Dict assignment `m[n] = e`: replace the value in place when the key is
present, append a new pair otherwise. -/
def setEntry (m : SMap) (n : String) (e : Entry) : SMap :=
  if (lookupMap m n).isSome then
    m.map (fun p => if p.1 = n then (n, e) else p)
  else m ++ [(n, e)]

/-- A queue element, `{"name": n, "url": obj["url"], "count": obj["track_count"]}`
from `SpotdlClient.download`. -/
structure WorkItem where
  name : String
  url : String
  count : Nat
deriving DecidableEq, Repr

/-- The membership test of the queue comprehension:
`n not in local_map or local_map[n]["snapshot_id"] != obj["snapshot_id"]`. -/
def changed (localMap : SMap) (n : String) (obj : Entry) : Bool :=
  match lookupMap localMap n with
  | none => true
  | some prev => prev.snapshot_id != obj.snapshot_id

/-- The queue comprehension of `SpotdlClient.download` (lines 156-160):
iterate the target snapshot map in order and keep the changed entries. -/
def computeQueue (current localMap : SMap) : List WorkItem :=
  (current.filter (fun p => changed localMap p.1 p.2)).map
    (fun p => ⟨p.1, p.2.url, p.2.track_count⟩)

/-- Entry-wise transformation of a map that keeps every key in place;
used to express "change only `url` and/or `track_count`". -/
def mapEntries (f : String → Entry → Entry) (m : SMap) : SMap :=
  m.map (fun p => (p.1, f p.1 p.2))

-- ---------------------------------------------------------------------
-- State store: file system, `load_map`, `atomic_save`.
-- ---------------------------------------------------------------------

/-- A file system: path to file contents (`none` means the path does not
exist). -/
abbrev FS := String → Option String

/-- The constant `MAP_FILE = "snapshot_map.json"`. -/
def MAP_FILE : String := "snapshot_map.json"

/-- Create or truncate a file at `p` with contents `c`. -/
def writeFile (fs : FS) (p c : String) : FS :=
  fun q => if q = p then some c else fs q

/-- Model of `os.replace(src, dst)`: atomically move `src` onto `dst`. -/
def replaceFile (fs : FS) (src dst : String) : FS :=
  fun q => if q = dst then fs src else if q = src then none else fs q

/-- Model of `os.remove(p)`. -/
def removeFile (fs : FS) (p : String) : FS :=
  fun q => if q = p then none else fs q

/-- The mutable state owned by `SpotifyClient`: the disk and the
`_cached_map` field. -/
structure StoreState where
  fs : FS
  cache : Option SMap

/-- Serialization of one entry, abstracting the JSON object written by
`json.dump` for one playlist. -/
def serializeEntry (e : Entry) : String :=
  "url:" ++ e.url ++ ",snapshot_id:" ++ e.snapshot_id ++
    ",track_count:" ++ toString e.track_count

/-- Insertion into a key-sorted association list. -/
def insertSorted (p : String × Entry) : List (String × Entry) → List (String × Entry)
  | [] => [p]
  | q :: rest => if p.1 < q.1 then p :: q :: rest else q :: insertSorted p rest

/-- Key-sorted copy of a map, modelling `sort_keys=True`. -/
def sortByKey (m : SMap) : SMap := m.foldr insertSorted []

/-- The byte string `json.dump(data, tmp, indent=4, sort_keys=True)`
writes, abstracted to a simple key-sorted rendering. -/
def serializeMap (m : SMap) : String :=
  String.intercalate ";" ((sortByKey m).map (fun p => p.1 ++ "=" ++ serializeEntry p.2))

/-- Model of `SpotifyClient.load_map` (lines 57-64).  `json.load` is abstracted as
the `parse` parameter: `none` models the `except` path (unreadable or
corrupt file).  Returns the loaded map together with the updated client
state; being a total function, it can never raise. -/
def load_map (parse : String → Option SMap) (s : StoreState) : SMap × StoreState :=
  match s.cache with
  | some m => (m, s)
  | none =>
    match s.fs MAP_FILE with
    | none => ([], s)
    | some content =>
      match parse content with
      | some m => (m, ⟨s.fs, some m⟩)
      | none => ([], s)

/-- How far a given `atomic_save` call gets. -/
inductive SaveMode where
  /-- Both the temporary-file write and `os.replace` succeed. -/
  | complete
  /-- `json.dump` raises after writing `junk` to the temporary file; the
  `except` clause removes the temporary file. -/
  | failWrite
  /-- The process is killed after the temporary file is fully written but
  before `os.replace` runs. -/
  | crashBeforeReplace
deriving DecidableEq, Repr

/-- Model of `SpotifyClient.atomic_save` (lines 66-76): load the current map
(cache-first), apply the single-key update, set the cache, create a fresh
temporary file (`tempfile.mkstemp`, giving the fresh name `temp`), write
the serialized map there, and atomically replace `MAP_FILE`.  `mode` says
how far the call gets; `junk` is whatever partial content a failed
`json.dump` left in the temporary file. -/
def atomic_save (parse : String → Option SMap) (s : StoreState) (name : String)
    (entry : Entry) (temp junk : String) : SaveMode → StoreState :=
  fun mode =>
    let loaded := load_map parse s
    let data := setEntry loaded.1 name entry
    let fs1 := loaded.2.fs
    let payload := serializeMap data
    match mode with
    | .complete =>
        ⟨replaceFile (writeFile (writeFile fs1 temp "") temp payload) temp MAP_FILE,
          some data⟩
    | .crashBeforeReplace =>
        ⟨writeFile (writeFile fs1 temp "") temp payload, some data⟩
    | .failWrite =>
        ⟨removeFile (writeFile (writeFile fs1 temp "") temp junk) temp, some data⟩

/-- The cache/disk consistency invariant of the spec: whenever a map is
cached, the state file holds exactly its serialization. -/
def storeConsistent (s : StoreState) : Prop :=
  ∀ m, s.cache = some m → s.fs MAP_FILE = some (serializeMap m)

-- ---------------------------------------------------------------------
-- Rate-aware executor: `process_playlist` and the batch loop.
-- ---------------------------------------------------------------------

/-- The constant `MAX_RETRIES = 5` (line 31 of `src/main.py`). -/
def MAX_RETRIES : Nat := 5

/-- Outcome of one fetch attempt (`spotdl.search` + `download_songs`),
classified exactly as the `except` clause of `process_playlist` does:
an exception whose text contains "429" is rate-limiting, additionally
carrying "83000" or "50000" means a hard ban, anything else is some
other error. -/
inductive FetchOutcome where
  | success
  | rateLimited (hardBan : Bool)
  | otherError
deriving DecidableEq, Repr

/-- How one `process_playlist` call ends: a Python return value
(`ret (some true)` for `return True`, `ret (some false)` for
`return False`, `ret none` for falling off the retry loop, which returns
`None`), or `sys.exit code`. -/
inductive ProcResult where
  | ret (v : Option Bool)
  | exit (code : Nat)
deriving DecidableEq, Repr

/-- Observable trace of one `process_playlist` call: its result, how many
fetch attempts it made, the `atomic_save` calls it issued, and the
backoff sleeps (in seconds) it performed. -/
structure ProcTrace where
  result : ProcResult
  attempts : Nat
  commits : List (String × Entry)
  sleeps : List Nat
deriving DecidableEq, Repr

/-- The commit issued on success:
`entry = self.spotify_client.target_snapshot_map.get(name)` followed by
`atomic_save(name, entry)`.  Queue items are always built from the target
snapshot map, so the lookup succeeds whenever `process_playlist` is
reached from `download`; the impossible miss is modelled as no commit
event. -/
def successCommit (current : SMap) (name : String) : List (String × Entry) :=
  match lookupMap current name with
  | some e => [(name, e)]
  | none => []

/-- The retry loop `for attempt in range(MAX_RETRIES)` of
`process_playlist` (lines 117-141), with `attempt` the 0-based index of
the current attempt and `fuel` the number of iterations left.  On
success: commit and `return True`.  On a hard-ban 429: `sys.exit(1)`.  On
any other 429: sleep `180 * (attempt + 1)` seconds and continue.  On any
other error: `return False`.  Falling off the loop returns `None`. -/
def processLoop (fetch : Nat → FetchOutcome) (current : SMap) (name : String) :
    Nat → Nat → ProcTrace
  | _, 0 => ⟨.ret none, 0, [], []⟩
  | attempt, fuel + 1 =>
    match fetch attempt with
    | .success => ⟨.ret (some true), 1, successCommit current name, []⟩
    | .rateLimited true => ⟨.exit 1, 1, [], []⟩
    | .rateLimited false =>
      let rest := processLoop fetch current name (attempt + 1) fuel
      ⟨rest.result, rest.attempts + 1, rest.commits, 180 * (attempt + 1) :: rest.sleeps⟩
    | .otherError => ⟨.ret (some false), 1, [], []⟩

/-- Model of `SpotdlClient.process_playlist` for one work item whose fetch
attempts behave as `fetch`. -/
def process_playlist (fetch : Nat → FetchOutcome) (current : SMap) (name : String) :
    ProcTrace :=
  processLoop fetch current name 0 MAX_RETRIES

/-- Observable trace of the batch loop of `download` (`choice == 0`,
lines 181-188): which items had processing started, all commits in
order, whether the run was aborted by `sys.exit`, and each processed
item's result. -/
structure RunTrace where
  processed : List String
  commits : List (String × Entry)
  aborted : Bool
  results : List (String × ProcResult)
deriving DecidableEq, Repr

/-- The batch loop `for item in queue: self.process_playlist(item)`: the
pre-item stagger and post-mega cooldown sleeps touch no state and are not
recorded.  `sys.exit` inside `process_playlist` kills the whole process,
so no later item is reached.  The fetch oracle is keyed by item name
(queue names are distinct whenever the current snapshot map has distinct
keys). -/
def runQueue (fetch : String → Nat → FetchOutcome) (current : SMap) :
    List WorkItem → RunTrace
  | [] => ⟨[], [], false, []⟩
  | w :: ws =>
    let t := process_playlist (fetch w.name) current w.name
    match t.result with
    | .exit c => ⟨[w.name], t.commits, true, [(w.name, .exit c)]⟩
    | .ret v =>
      let rest := runQueue fetch current ws
      ⟨w.name :: rest.processed, t.commits ++ rest.commits, rest.aborted,
        (w.name, .ret v) :: rest.results⟩

/-- Effect of a sequence of successful commits on the logical map: each
`atomic_save(name, entry)` performs `data[name] = entry` on the
cached/persisted map. -/
def applyEvents (m : SMap) (events : List (String × Entry)) : SMap :=
  events.foldl (fun acc p => setEntry acc p.1 p.2) m

-- ---------------------------------------------------------------------
-- Liveness probe and `download`.
-- ---------------------------------------------------------------------

/-- How `self.sp.me()` behaves in `check_initial_rate_limit`: success, an
exception whose text contains "429", or some other exception. -/
inductive ProbeResult where
  | ok
  | rateLimited429
  | otherError
deriving DecidableEq, Repr

/-- Model of `SpotifyClient.check_initial_rate_limit` (lines 47-55): only an
exception containing "429" reports the ban; other errors "will be caught
later" and report success. -/
def check_initial_rate_limit : ProbeResult → Bool
  | .rateLimited429 => false
  | _ => true

/-- The external world `SpotdlClient.download` runs against. -/
structure Env where
  /-- Does `BASE_PATH` exist (the WSL-mount check)? -/
  basePathExists : Bool
  /-- Behavior of the liveness probe `self.sp.me()`. -/
  probe : ProbeResult
  /-- Result of `get_all_playlists()` (the paginated listing). -/
  listing : SMap
  /-- Behavior of `json.load` on the state file. -/
  parse : String → Option SMap
  /-- Outcome of each fetch attempt, per item name and attempt index. -/
  fetch : String → Nat → FetchOutcome
  /-- The user's menu input; `none` models a `ValueError` from `int(...)`. -/
  choice : Option Int
  /-- The `random.shuffle` permutation applied to the queue. -/
  shuffle : List WorkItem → List WorkItem

/-- Observable outcome of one `download()` call. -/
structure DlResult where
  /-- Client state (disk and cache) when the call ends. -/
  store : StoreState
  /-- Was `get_all_playlists` reached? -/
  listingFetched : Bool
  /-- The work queue, when its construction was reached. -/
  queue : Option (List WorkItem)
  /-- Names of items whose processing started. -/
  processed : List String
  /-- All `atomic_save` calls issued. -/
  commits : List (String × Entry)
  /-- Did the run end via `sys.exit` (hard ban)? -/
  aborted : Bool

/-- Model of `SpotdlClient.download` (lines 143-192).  The interactive menu
printing touches no state.  Commit events are applied to the store as
successful `atomic_save` calls (the per-call temporary names and failure
modes are irrelevant to the claims settled against `download`; the
store after the run applies each commit as a completed save with a fresh
temporary name `tempName i`). -/
def commitStore (parse : String → Option SMap) (tempName : Nat → String)
    (s : StoreState) (events : List (String × Entry)) : StoreState :=
  (events.zip (List.range events.length)).foldl
    (fun st p => atomic_save parse st p.1.1 p.1.2 (tempName p.2) "" .complete) s

/-- The `download` entry point over environment `env`, starting from
client state `s0`; `tempName` supplies the fresh `mkstemp` names. -/
def download (env : Env) (tempName : Nat → String) (s0 : StoreState) : DlResult :=
  if !env.basePathExists then ⟨s0, false, none, [], [], false⟩
  else if !check_initial_rate_limit env.probe then ⟨s0, false, none, [], [], false⟩
  else
    let target := env.listing
    let loaded := load_map env.parse s0
    let queue := computeQueue target loaded.1
    if queue.isEmpty then ⟨loaded.2, true, some queue, [], [], false⟩
    else
      match env.choice with
      | none => ⟨loaded.2, true, some queue, [], [], false⟩
      | some c =>
        if c = 0 then
          let t := runQueue env.fetch target (env.shuffle queue)
          ⟨commitStore env.parse tempName loaded.2 t.commits, true, some queue,
            t.processed, t.commits, t.aborted⟩
        else if 1 ≤ c ∧ c ≤ (queue.length : Int) then
          match queue.get? (c - 1).toNat with
          | some w =>
            let t := process_playlist (env.fetch w.name) target w.name
            ⟨commitStore env.parse tempName loaded.2 t.commits, true, some queue,
              [w.name], t.commits, t.result = .exit 1⟩
          | none => ⟨loaded.2, true, some queue, [], [], false⟩
        else ⟨loaded.2, true, some queue, [], [], false⟩

/-- The entry committed for a queued name (present in the current
snapshot map whenever the item came from the queue). -/
def entryOf (current : SMap) (n : String) : Entry :=
  (lookupMap current n).getD ⟨"", "", 0⟩

-- Association-list lemmas.

theorem lookupMap_mem {m : SMap} {n : String} {e : Entry}
    (h : lookupMap m n = some e) : (n, e) ∈ m := by
  induction m with
  | nil => simp [lookupMap] at h
  | cons p rest ih =>
    obtain ⟨k, v⟩ := p
    by_cases hp : k = n
    · subst hp
      simp [lookupMap] at h
      subst h
      exact List.mem_cons_self _ _
    · simp [lookupMap, hp] at h
      exact List.mem_cons_of_mem _ (ih h)

theorem mem_lookupMap_of_nodup {m : SMap} {n : String} {e : Entry}
    (hnd : (m.map Prod.fst).Nodup) (h : (n, e) ∈ m) :
    lookupMap m n = some e := by
  induction m with
  | nil => simp at h
  | cons p rest ih =>
    simp only [List.map_cons, List.nodup_cons] at hnd
    rcases List.mem_cons.mp h with h | h
    · subst h
      simp [lookupMap]
    · have hne : p.1 ≠ n := by
        intro heq
        apply hnd.1
        rw [heq]
        exact List.mem_map.mpr ⟨(n, e), h, rfl⟩
      rw [lookupMap, if_neg hne]
      exact ih hnd.2 h

theorem lookupMap_append (m₁ m₂ : SMap) (n : String) :
    lookupMap (m₁ ++ m₂) n =
      match lookupMap m₁ n with
      | some e => some e
      | none => lookupMap m₂ n := by
  induction m₁ with
  | nil => simp [lookupMap]
  | cons p rest ih =>
    by_cases hp : p.1 = n <;> simp [lookupMap, hp, ih]

theorem lookupMap_replace_self (m : SMap) (n : String) (e : Entry)
    (h : (lookupMap m n).isSome) :
    lookupMap (m.map (fun p => if p.1 = n then (n, e) else p)) n = some e := by
  induction m with
  | nil => simp [lookupMap] at h
  | cons p rest ih =>
    by_cases hp : p.1 = n
    · simp [lookupMap, hp]
    · rw [lookupMap, if_neg hp] at h
      simp only [List.map_cons, if_neg hp, lookupMap]
      exact ih h

theorem lookupMap_replace_other (m : SMap) (n n' : String) (e : Entry)
    (hne : n' ≠ n) :
    lookupMap (m.map (fun p => if p.1 = n then (n, e) else p)) n' = lookupMap m n' := by
  induction m with
  | nil => rfl
  | cons p rest ih =>
    by_cases hp : p.1 = n
    · have h1 : ¬ (n = n') := fun hc => hne hc.symm
      have h2 : ¬ (p.1 = n') := by rw [hp]; exact h1
      simp only [List.map_cons, if_pos hp, lookupMap, if_neg h1, if_neg h2]
      exact ih
    · by_cases hp' : p.1 = n'
      · simp only [List.map_cons, if_neg hp, lookupMap, if_pos hp']
      · simp only [List.map_cons, if_neg hp, lookupMap, if_neg hp']
        exact ih

theorem lookupMap_setEntry_self (m : SMap) (n : String) (e : Entry) :
    lookupMap (setEntry m n e) n = some e := by
  rw [setEntry]
  by_cases h : (lookupMap m n).isSome
  · rw [if_pos h]
    exact lookupMap_replace_self m n e h
  · rw [if_neg h, lookupMap_append]
    rw [Option.not_isSome_iff_eq_none] at h
    simp [h, lookupMap]

theorem lookupMap_setEntry_other (m : SMap) (n n' : String) (e : Entry)
    (hne : n' ≠ n) : lookupMap (setEntry m n e) n' = lookupMap m n' := by
  rw [setEntry]
  by_cases h : (lookupMap m n).isSome
  · rw [if_pos h]
    exact lookupMap_replace_other m n n' e hne
  · rw [if_neg h, lookupMap_append]
    cases hl : lookupMap m n' with
    | some v => rfl
    | none =>
      have h2 : ¬ (n = n') := fun hc => hne hc.symm
      simp [lookupMap, h2]

theorem lookupMap_mapEntries (f : String → Entry → Entry) (m : SMap) (n : String) :
    lookupMap (mapEntries f m) n = (lookupMap m n).map (f n) := by
  induction m with
  | nil => rfl
  | cons p rest ih =>
    by_cases hp : p.1 = n
    · subst hp
      simp [lookupMap, mapEntries]
    · simp only [mapEntries, List.map_cons, lookupMap, if_neg hp]
      exact ih

-- Diff-engine lemmas.

theorem changed_true_iff (l : SMap) (n : String) (e : Entry) :
    changed l n e = true ↔
      (lookupMap l n = none ∨
        ∃ p, lookupMap l n = some p ∧ p.snapshot_id ≠ e.snapshot_id) := by
  cases h : lookupMap l n with
  | none => simp [changed, h]
  | some p => simp [changed, h, bne_iff_ne]

theorem mem_queueNames (current localMap : SMap) (n : String) :
    n ∈ (computeQueue current localMap).map WorkItem.name ↔
      ∃ e, (n, e) ∈ current ∧ changed localMap n e = true := by
  constructor
  · intro h
    rcases List.mem_map.mp h with ⟨w, hw, hwn⟩
    rcases List.mem_map.mp hw with ⟨p, hp, hpw⟩
    rcases List.mem_filter.mp hp with ⟨hpc, hch⟩
    have hpn : p.1 = n := by rw [← hwn, ← hpw]
    refine ⟨p.2, ?_, ?_⟩
    · rw [← hpn]
      simpa using hpc
    · rwa [hpn] at hch
  · rintro ⟨e, he, hch⟩
    exact List.mem_map.mpr ⟨⟨n, e.url, e.track_count⟩,
      List.mem_map.mpr ⟨(n, e), List.mem_filter.mpr ⟨he, hch⟩, rfl⟩, rfl⟩

theorem filter_over_map {α β : Type} (g : α → β) (p : β → Bool) (l : List α) :
    (l.map g).filter p = (l.filter (fun a => p (g a))).map g := by
  induction l with
  | nil => rfl
  | cons a l ih =>
    by_cases h : p (g a) = true <;> simp [h, ih]

theorem queueNames_mapEntries (current localMap : SMap)
    (f g : String → Entry → Entry)
    (hf : ∀ nm e2, (f nm e2).snapshot_id = e2.snapshot_id)
    (hg : ∀ nm e2, (g nm e2).snapshot_id = e2.snapshot_id) :
    (computeQueue (mapEntries f current) (mapEntries g localMap)).map WorkItem.name =
      (computeQueue current localMap).map WorkItem.name := by
  have hch : ∀ (nm : String) (e2 : Entry),
      changed (mapEntries g localMap) nm (f nm e2) = changed localMap nm e2 := by
    intro nm e2
    unfold changed
    rw [lookupMap_mapEntries]
    cases lookupMap localMap nm with
    | none => rfl
    | some p => simp [hg, hf]
  unfold computeQueue mapEntries
  rw [filter_over_map]
  simp only [List.map_map]
  rw [List.filter_congr (by intro p _; exact hch p.1 p.2)]
  rfl

/-- C1. Queue membership criterion: a name present in the current snapshot
map appears in the work queue iff it is absent from the previous map or its
`snapshot_id` differs from the previous entry; moreover any entry-wise
change of the two maps that preserves every `snapshot_id` (e.g. changing
only `url` or `track_count`) leaves the set of queued names unchanged. -/
theorem queue_membership_criterion (current localMap : SMap)
    (hc : (current.map Prod.fst).Nodup)
    (n : String) (e : Entry) (he : lookupMap current n = some e) :
    ((n ∈ (computeQueue current localMap).map WorkItem.name) ↔
      (lookupMap localMap n = none ∨
        ∃ p, lookupMap localMap n = some p ∧ p.snapshot_id ≠ e.snapshot_id)) ∧
    (∀ (f g : String → Entry → Entry),
      (∀ nm e2, (f nm e2).snapshot_id = e2.snapshot_id) →
      (∀ nm e2, (g nm e2).snapshot_id = e2.snapshot_id) →
      (computeQueue (mapEntries f current) (mapEntries g localMap)).map WorkItem.name =
        (computeQueue current localMap).map WorkItem.name) := by
  refine ⟨?_, fun f g hf hg => queueNames_mapEntries current localMap f g hf hg⟩
  rw [mem_queueNames, ← changed_true_iff localMap n e]
  constructor
  · rintro ⟨e', he', hch⟩
    have : lookupMap current n = some e' := mem_lookupMap_of_nodup hc he'
    rw [he] at this
    injection this with h2
    rwa [h2]
  · intro hch
    exact ⟨e, lookupMap_mem he, hch⟩


theorem load_map_fs (parse : String → Option SMap) (s : StoreState) :
    (load_map parse s).2.fs = s.fs := by
  unfold load_map
  split
  · rfl
  · split
    · rfl
    · split
      · rfl
      · rfl

/-- C2. Commit atomicity: a crash after the temporary file is written but
before `os.replace`, and likewise a failed write (whose handler removes
the temporary file), leave the state file's contents byte-identical to
before the call; a completed commit makes the state file hold exactly the
serialization of the updated map, installed by the single atomic
`os.replace`. -/
theorem commit_atomicity (parse : String → Option SMap) (s : StoreState)
    (name : String) (entry : Entry) (temp junk : String) (h : temp ≠ MAP_FILE) :
    ((atomic_save parse s name entry temp junk .crashBeforeReplace).fs MAP_FILE
        = s.fs MAP_FILE) ∧
    ((atomic_save parse s name entry temp junk .failWrite).fs MAP_FILE
        = s.fs MAP_FILE) ∧
    ((atomic_save parse s name entry temp junk .complete).fs MAP_FILE
        = some (serializeMap (setEntry (load_map parse s).1 name entry))) := by
  have hne : MAP_FILE ≠ temp := fun hc => h hc.symm
  refine ⟨?_, ?_, ?_⟩
  · simp [atomic_save, writeFile, hne, load_map_fs]
  · simp [atomic_save, removeFile, writeFile, hne, load_map_fs]
  · simp [atomic_save, replaceFile, writeFile]

/-- Witness for C2 at a concrete store state. -/
theorem commit_atomicity_witness :
    (("tmp0" : String) ≠ MAP_FILE) ∧
    (((atomic_save (fun _ => none)
          ⟨fun q => if q = MAP_FILE then some "old" else none, none⟩
          "A" ⟨"u", "s1", 3⟩ "tmp0" "j" .crashBeforeReplace).fs MAP_FILE
        = (fun q => if q = MAP_FILE then some "old" else none : FS) MAP_FILE) ∧
    ((atomic_save (fun _ => none)
          ⟨fun q => if q = MAP_FILE then some "old" else none, none⟩
          "A" ⟨"u", "s1", 3⟩ "tmp0" "j" .failWrite).fs MAP_FILE
        = (fun q => if q = MAP_FILE then some "old" else none : FS) MAP_FILE) ∧
    ((atomic_save (fun _ => none)
          ⟨fun q => if q = MAP_FILE then some "old" else none, none⟩
          "A" ⟨"u", "s1", 3⟩ "tmp0" "j" .complete).fs MAP_FILE
        = some (serializeMap (setEntry
            (load_map (fun _ => none)
              ⟨fun q => if q = MAP_FILE then some "old" else none, none⟩).1
            "A" ⟨"u", "s1", 3⟩)))) :=
  ⟨by decide,
    commit_atomicity (fun _ => none)
      ⟨fun q => if q = MAP_FILE then some "old" else none, none⟩
      "A" ⟨"u", "s1", 3⟩ "tmp0" "j" (by decide)⟩

/-- C7. State load fallback: with an empty cache, `load_map` returns the
empty map and an unchanged state both when no state file exists and when
its contents fail to parse; as a total function it never raises, so
loading never terminates the run. -/
theorem load_map_fallback (parse : String → Option SMap) (s : StoreState)
    (h : s.cache = none) :
    ((s.fs MAP_FILE = none → load_map parse s = ([], s)) ∧
      (∀ c, s.fs MAP_FILE = some c → parse c = none → load_map parse s = ([], s))) := by
  constructor
  · intro hf
    simp [load_map, h, hf]
  · intro c hf hp
    simp [load_map, h, hf, hp]

/-- Witness for C7: a missing file and a corrupt file, both at a concrete
state. -/
theorem load_map_fallback_witness :
    ((⟨fun _ => none, none⟩ : StoreState).cache = none ∧
      ((⟨fun _ => none, none⟩ : StoreState).fs MAP_FILE = none →
        load_map (fun _ => none) ⟨fun _ => none, none⟩ = ([], ⟨fun _ => none, none⟩)) ∧
      (∀ c, (⟨fun _ => none, none⟩ : StoreState).fs MAP_FILE = some c →
        (fun _ => (none : Option SMap)) c = none →
        load_map (fun _ => none) ⟨fun _ => none, none⟩ = ([], ⟨fun _ => none, none⟩))) :=
  ⟨rfl, load_map_fallback (fun _ => none) ⟨fun _ => none, none⟩ rfl⟩

/-- C8 counterexample: an `atomic_save` whose disk write fails leaves the
updated map in the cache while the disk keeps its old contents, so the
cache and the persisted map differ after the call returns. -/
theorem cache_disk_consistency_counterexample :
    ¬ storeConsistent (atomic_save (fun c => if c = serializeMap [] then some [] else none)
        ⟨fun q => if q = MAP_FILE then some (serializeMap []) else none, none⟩
        "A" ⟨"u", "s1", 3⟩ "tmp0" "" .failWrite) := by
  intro hcon
  have h := hcon [("A", ⟨"u", "s1", 3⟩)] (by decide)
  exact absurd h (by decide)

/-- C8 amended: after a commit whose write and replace both complete, the
cache and the on-disk map agree; after a commit whose disk write fails,
the cache holds the updated map while the state file keeps its previous
contents, so the two may differ. -/
theorem cache_disk_consistency_after_commit (parse : String → Option SMap)
    (s : StoreState) (name : String) (entry : Entry) (temp junk : String)
    (h : temp ≠ MAP_FILE) :
    storeConsistent (atomic_save parse s name entry temp junk .complete) ∧
    (atomic_save parse s name entry temp junk .failWrite).cache
      = some (setEntry (load_map parse s).1 name entry) ∧
    (atomic_save parse s name entry temp junk .failWrite).fs MAP_FILE
      = s.fs MAP_FILE := by
  have hne : MAP_FILE ≠ temp := fun hc => h hc.symm
  refine ⟨?_, rfl, ?_⟩
  · intro m hm
    have hm' : m = setEntry (load_map parse s).1 name entry := by
      have : some (setEntry (load_map parse s).1 name entry) = some m := by
        rw [← hm]; rfl
      injection this with h2
      exact h2.symm
    rw [hm']
    simp [atomic_save, replaceFile, writeFile]
  · simp [atomic_save, removeFile, writeFile, hne, load_map_fs]

/-- Witness for the amended C8 at a concrete store state. -/
theorem cache_disk_consistency_after_commit_witness :
    (("t1" : String) ≠ MAP_FILE) ∧
    (storeConsistent (atomic_save (fun _ => none) ⟨fun _ => none, none⟩
        "A" ⟨"u", "s1", 3⟩ "t1" "j" .complete) ∧
    (atomic_save (fun _ => none) ⟨fun _ => none, none⟩
        "A" ⟨"u", "s1", 3⟩ "t1" "j" .failWrite).cache
      = some (setEntry (load_map (fun _ => none) ⟨fun _ => none, none⟩).1
          "A" ⟨"u", "s1", 3⟩) ∧
    (atomic_save (fun _ => none) ⟨fun _ => none, none⟩
        "A" ⟨"u", "s1", 3⟩ "t1" "j" .failWrite).fs MAP_FILE
      = (⟨fun _ => none, none⟩ : StoreState).fs MAP_FILE) :=
  ⟨by decide,
    cache_disk_consistency_after_commit (fun _ => none) ⟨fun _ => none, none⟩
      "A" ⟨"u", "s1", 3⟩ "t1" "j" (by decide)⟩


/-- C3. Probe short-circuit: when the liveness probe reports a 429,
`download` returns at once: the listing is never fetched, no queue is
built, no item is processed, no commit is issued, and the client state
(including the on-disk state file) is exactly as before the call. -/
theorem probe_short_circuit (env : Env) (tempName : Nat → String)
    (s0 : StoreState) (h : env.probe = .rateLimited429) :
    download env tempName s0 = ⟨s0, false, none, [], [], false⟩ := by
  unfold download
  cases hb : env.basePathExists with
  | false => rfl
  | true => rw [h]; rfl

/-- Witness for C3 at a concrete environment. -/
theorem probe_short_circuit_witness :
    (Env.probe ⟨true, .rateLimited429, [("A", ⟨"u", "s1", 1⟩)], fun _ => none,
        fun _ _ => .success, some 0, id⟩ = .rateLimited429) ∧
    download ⟨true, .rateLimited429, [("A", ⟨"u", "s1", 1⟩)], fun _ => none,
        fun _ _ => .success, some 0, id⟩ (fun _ => "t") ⟨fun _ => none, none⟩
      = ⟨⟨fun _ => none, none⟩, false, none, [], [], false⟩ :=
  ⟨rfl, probe_short_circuit _ _ _ rfl⟩

/-- Unrolling `processLoop` over a run of `j` rate-limited (non-hard-ban)
attempts starting at attempt index `a`: each failed attempt adds one
attempt, no commit, and a `180 * (attempt + 1)`-second sleep. -/
theorem processLoop_rl_skip (fetch : Nat → FetchOutcome) (current : SMap) (name : String) :
    ∀ (j a fuel : Nat), j ≤ fuel →
      (∀ i, i < j → fetch (a + i) = .rateLimited false) →
      processLoop fetch current name a fuel =
        ⟨(processLoop fetch current name (a + j) (fuel - j)).result,
         (processLoop fetch current name (a + j) (fuel - j)).attempts + j,
         (processLoop fetch current name (a + j) (fuel - j)).commits,
         (List.range' (a + 1) j).map (fun i => 180 * i) ++
           (processLoop fetch current name (a + j) (fuel - j)).sleeps⟩ := by
  intro j
  induction j with
  | zero =>
    intro a fuel _ _
    simp
  | succ j ih =>
    intro a fuel hj h
    cases fuel with
    | zero => exact absurd hj (by omega)
    | succ f =>
      have h0 : fetch a = .rateLimited false := by
        have h1 := h 0 (by omega)
        simpa using h1
      have hrec := ih (a + 1) f (by omega) (fun i hi => by
        have h2 := h (i + 1) (by omega)
        rw [show a + (i + 1) = a + 1 + i by omega] at h2
        exact h2)
      simp only [processLoop, h0, hrec]
      rw [show a + 1 + j = a + (j + 1) by omega]
      rw [show f - j = f + 1 - (j + 1) by omega]
      rw [List.range'_succ]
      simp only [List.map_cons, List.cons_append]
      congr 1

/-- C9. Backoff schedule: in a `process_playlist` call whose first `k`
attempts are rate-limited without a hard ban (and which then either has
exhausted `MAX_RETRIES` or meets a non-rate-limited outcome), the recorded
backoff sleeps are exactly `180 * 1, 180 * 2, ..., 180 * k` seconds: the
code's `wait_time = 180 * (attempt + 1)` with 0-based `attempt`, i.e.
`base_delay * attempt_number` with the 1-based attempt number and a base
delay of 180 seconds. -/
theorem backoff_schedule (fetch : Nat → FetchOutcome) (current : SMap) (name : String)
    (k : Nat) (hk : k ≤ MAX_RETRIES)
    (hrl : ∀ i, i < k → fetch i = .rateLimited false)
    (hstop : k = MAX_RETRIES ∨ fetch k ≠ .rateLimited false) :
    (process_playlist fetch current name).sleeps =
      (List.range' 1 k).map (fun i => 180 * i) := by
  unfold process_playlist
  rw [processLoop_rl_skip fetch current name k 0 MAX_RETRIES hk
    (fun i hi => by simpa using hrl i hi)]
  have hz : (processLoop fetch current name (0 + k) (MAX_RETRIES - k)).sleeps = [] := by
    rcases hstop with h | h
    · subst h
      rfl
    · cases hf : MAX_RETRIES - k with
      | zero => rfl
      | succ f =>
        rw [Nat.zero_add]
        cases hfk : fetch k with
        | success => simp [processLoop, hfk]
        | otherError => simp [processLoop, hfk]
        | rateLimited b =>
          cases b with
          | true => simp [processLoop, hfk]
          | false => exact absurd hfk h
  rw [hz]
  simp

/-- Witness for C9: two rate-limited attempts then success sleep 180 then
360 seconds. -/
theorem backoff_schedule_witness :
    (2 ≤ MAX_RETRIES ∧
      (∀ i, i < 2 → (fun i => if i < 2 then FetchOutcome.rateLimited false
        else FetchOutcome.success) i = .rateLimited false) ∧
      (2 = MAX_RETRIES ∨ (fun i => if i < 2 then FetchOutcome.rateLimited false
        else FetchOutcome.success) 2 ≠ .rateLimited false)) ∧
    ((process_playlist (fun i => if i < 2 then FetchOutcome.rateLimited false
        else FetchOutcome.success) [] "P").sleeps =
      (List.range' 1 2).map (fun i => 180 * i)) ∧
    (List.range' 1 2).map (fun i => 180 * i) = [180, 360] :=
  ⟨⟨by decide, by decide, by decide⟩,
    backoff_schedule (fun i => if i < 2 then FetchOutcome.rateLimited false
      else FetchOutcome.success) [] "P" 2 (by decide) (by decide) (by decide),
    by decide⟩

/-- C10. Retry exhaustion: when every one of the `MAX_RETRIES` (5)
attempts is rate-limited without a hard ban, `process_playlist` makes
exactly 5 attempts, sleeps after each, and then falls off the loop,
returning Python `None` (`ret none`) — a falsy value distinct from the
explicit `False` (`ret (some false)`) of the abandoned-item path — with
no commit issued and no abandoned-item report. -/
theorem retry_exhaustion (fetch : Nat → FetchOutcome) (current : SMap) (name : String)
    (hrl : ∀ i, i < MAX_RETRIES → fetch i = .rateLimited false) :
    process_playlist fetch current name =
      ⟨.ret none, MAX_RETRIES, [], [180, 360, 540, 720, 900]⟩ ∧
    (ProcResult.ret none ≠ ProcResult.ret (some false)) := by
  refine ⟨?_, by decide⟩
  unfold process_playlist
  rw [processLoop_rl_skip fetch current name MAX_RETRIES 0 MAX_RETRIES (Nat.le_refl _)
    (fun i hi => by simpa using hrl i hi)]
  rfl

/-- Witness for C10: a fetch oracle that always rate-limits. -/
theorem retry_exhaustion_witness :
    (∀ i, i < MAX_RETRIES →
      (fun _ => FetchOutcome.rateLimited false) i = .rateLimited false) ∧
    (process_playlist (fun _ => FetchOutcome.rateLimited false) [] "P" =
      ⟨.ret none, MAX_RETRIES, [], [180, 360, 540, 720, 900]⟩ ∧
    (ProcResult.ret none ≠ ProcResult.ret (some false))) :=
  ⟨by decide, retry_exhaustion (fun _ => FetchOutcome.rateLimited false) [] "P" (by decide)⟩

/-- C4. Partial-failure isolation: an item whose fetch fails with a
non-rate-limit error (after `k` rate-limited attempts) is abandoned with
`return False` after exactly `k + 1` attempts — no retry of the failing
attempt and no state-store commit — and the batch loop over the remaining
items continues exactly as if it had started after this item. -/
theorem other_error_isolation (fetch : String → Nat → FetchOutcome)
    (current : SMap) (w : WorkItem) (ws : List WorkItem) (k : Nat)
    (hk : k < MAX_RETRIES)
    (hrl : ∀ i, i < k → fetch w.name i = .rateLimited false)
    (hf : fetch w.name k = .otherError) :
    process_playlist (fetch w.name) current w.name =
      ⟨.ret (some false), k + 1, [], (List.range' 1 k).map (fun i => 180 * i)⟩ ∧
    runQueue fetch current (w :: ws) =
      ⟨w.name :: (runQueue fetch current ws).processed,
       (runQueue fetch current ws).commits,
       (runQueue fetch current ws).aborted,
       (w.name, .ret (some false)) :: (runQueue fetch current ws).results⟩ := by
  have hp : process_playlist (fetch w.name) current w.name =
      ⟨.ret (some false), k + 1, [], (List.range' 1 k).map (fun i => 180 * i)⟩ := by
    unfold process_playlist
    rw [processLoop_rl_skip (fetch w.name) current w.name k 0 MAX_RETRIES (by omega)
      (fun i hi => by simpa using hrl i hi)]
    rw [show MAX_RETRIES - k = (MAX_RETRIES - k - 1) + 1 by omega]
    simp only [processLoop, Nat.zero_add, hf, List.append_nil]
    congr 1
    omega
  refine ⟨hp, ?_⟩
  rw [runQueue, hp]
  rfl

/-- Witness for C4: a three-item queue whose middle item always fails
with a non-rate-limit error; items 1 and 3 are committed and the run does
not abort. -/
theorem other_error_isolation_witness :
    (0 < MAX_RETRIES ∧
      (∀ i, i < 0 → (fun n _ => if n = "B" then FetchOutcome.otherError
        else FetchOutcome.success) (WorkItem.name ⟨"B", "uB", 2⟩) i = .rateLimited false) ∧
      (fun n _ => if n = "B" then FetchOutcome.otherError
        else FetchOutcome.success) (WorkItem.name ⟨"B", "uB", 2⟩) 0 = .otherError) ∧
    (process_playlist ((fun n _ => if n = "B" then FetchOutcome.otherError
        else FetchOutcome.success) (WorkItem.name ⟨"B", "uB", 2⟩))
        [("A", ⟨"uA", "s1", 1⟩), ("B", ⟨"uB", "s2", 2⟩), ("C", ⟨"uC", "s3", 3⟩)]
        (WorkItem.name ⟨"B", "uB", 2⟩) =
      ⟨.ret (some false), 0 + 1, [], (List.range' 1 0).map (fun i => 180 * i)⟩ ∧
    runQueue (fun n _ => if n = "B" then FetchOutcome.otherError
        else FetchOutcome.success)
        [("A", ⟨"uA", "s1", 1⟩), ("B", ⟨"uB", "s2", 2⟩), ("C", ⟨"uC", "s3", 3⟩)]
        (⟨"B", "uB", 2⟩ :: [⟨"C", "uC", 3⟩]) =
      ⟨WorkItem.name ⟨"B", "uB", 2⟩ ::
          (runQueue (fun n _ => if n = "B" then FetchOutcome.otherError
            else FetchOutcome.success)
            [("A", ⟨"uA", "s1", 1⟩), ("B", ⟨"uB", "s2", 2⟩), ("C", ⟨"uC", "s3", 3⟩)]
            [⟨"C", "uC", 3⟩]).processed,
        (runQueue (fun n _ => if n = "B" then FetchOutcome.otherError
            else FetchOutcome.success)
            [("A", ⟨"uA", "s1", 1⟩), ("B", ⟨"uB", "s2", 2⟩), ("C", ⟨"uC", "s3", 3⟩)]
            [⟨"C", "uC", 3⟩]).commits,
        (runQueue (fun n _ => if n = "B" then FetchOutcome.otherError
            else FetchOutcome.success)
            [("A", ⟨"uA", "s1", 1⟩), ("B", ⟨"uB", "s2", 2⟩), ("C", ⟨"uC", "s3", 3⟩)]
            [⟨"C", "uC", 3⟩]).aborted,
        (WorkItem.name ⟨"B", "uB", 2⟩, .ret (some false)) ::
          (runQueue (fun n _ => if n = "B" then FetchOutcome.otherError
            else FetchOutcome.success)
            [("A", ⟨"uA", "s1", 1⟩), ("B", ⟨"uB", "s2", 2⟩), ("C", ⟨"uC", "s3", 3⟩)]
            [⟨"C", "uC", 3⟩]).results⟩) ∧
    (runQueue (fun n _ => if n = "B" then FetchOutcome.otherError
        else FetchOutcome.success)
        [("A", ⟨"uA", "s1", 1⟩), ("B", ⟨"uB", "s2", 2⟩), ("C", ⟨"uC", "s3", 3⟩)]
        [⟨"A", "uA", 1⟩, ⟨"B", "uB", 2⟩, ⟨"C", "uC", 3⟩] =
      ⟨["A", "B", "C"],
        [("A", ⟨"uA", "s1", 1⟩), ("C", ⟨"uC", "s3", 3⟩)], false,
        [("A", .ret (some true)), ("B", .ret (some false)), ("C", .ret (some true))]⟩) :=
  ⟨⟨by decide, by decide, by decide⟩,
    other_error_isolation
      (fun n _ => if n = "B" then FetchOutcome.otherError else FetchOutcome.success)
      [("A", ⟨"uA", "s1", 1⟩), ("B", ⟨"uB", "s2", 2⟩), ("C", ⟨"uC", "s3", 3⟩)]
      ⟨"B", "uB", 2⟩ [⟨"C", "uC", 3⟩] 0 (by decide) (by decide) (by decide),
    by decide⟩

/-- C6. Hard-ban abort: an item whose fetch raises a 429 carrying the
hard-ban indicator makes the call `sys.exit(1)` at that attempt: no
further attempt on the item, no commit from it, and the whole batch run
ends at once with only the already-accumulated commits (none from this
point on) and no later item processed. -/
theorem hard_ban_aborts (fetch : String → Nat → FetchOutcome)
    (current : SMap) (w : WorkItem) (ws : List WorkItem) (k : Nat)
    (hk : k < MAX_RETRIES)
    (hrl : ∀ i, i < k → fetch w.name i = .rateLimited false)
    (hb : fetch w.name k = .rateLimited true) :
    process_playlist (fetch w.name) current w.name =
      ⟨.exit 1, k + 1, [], (List.range' 1 k).map (fun i => 180 * i)⟩ ∧
    runQueue fetch current (w :: ws) =
      ⟨[w.name], [], true, [(w.name, .exit 1)]⟩ := by
  have hp : process_playlist (fetch w.name) current w.name =
      ⟨.exit 1, k + 1, [], (List.range' 1 k).map (fun i => 180 * i)⟩ := by
    unfold process_playlist
    rw [processLoop_rl_skip (fetch w.name) current w.name k 0 MAX_RETRIES (by omega)
      (fun i hi => by simpa using hrl i hi)]
    rw [show MAX_RETRIES - k = (MAX_RETRIES - k - 1) + 1 by omega]
    simp only [processLoop, Nat.zero_add, hb, List.append_nil]
    congr 1
    omega
  refine ⟨hp, ?_⟩
  rw [runQueue, hp]

/-- Witness for C6: a queue whose first item hard-bans at its first
attempt; the second item is never processed. -/
theorem hard_ban_aborts_witness :
    (0 < MAX_RETRIES ∧
      (∀ i, i < 0 → (fun _ _ => FetchOutcome.rateLimited true)
        (WorkItem.name ⟨"A", "uA", 1⟩) i = .rateLimited false) ∧
      (fun _ _ => FetchOutcome.rateLimited true) (WorkItem.name ⟨"A", "uA", 1⟩) 0
        = .rateLimited true) ∧
    (process_playlist ((fun _ _ => FetchOutcome.rateLimited true)
        (WorkItem.name ⟨"A", "uA", 1⟩)) [("A", ⟨"uA", "s1", 1⟩)]
        (WorkItem.name ⟨"A", "uA", 1⟩) =
      ⟨.exit 1, 0 + 1, [], (List.range' 1 0).map (fun i => 180 * i)⟩ ∧
    runQueue (fun _ _ => FetchOutcome.rateLimited true) [("A", ⟨"uA", "s1", 1⟩)]
        (⟨"A", "uA", 1⟩ :: [⟨"B", "uB", 2⟩]) =
      ⟨[WorkItem.name ⟨"A", "uA", 1⟩], [], true,
        [(WorkItem.name ⟨"A", "uA", 1⟩, .exit 1)]⟩) :=
  ⟨⟨by decide, by decide, by decide⟩,
    hard_ban_aborts (fun _ _ => FetchOutcome.rateLimited true)
      [("A", ⟨"uA", "s1", 1⟩)] ⟨"A", "uA", 1⟩ [⟨"B", "uB", 2⟩] 0
      (by decide) (by decide) (by decide)⟩

-- ---------------------------------------------------------------------
-- Idempotence of a fully successful run (C5).
-- ---------------------------------------------------------------------


theorem process_playlist_success (fetch : Nat → FetchOutcome) (current : SMap)
    (name : String) (h : fetch 0 = .success) :
    process_playlist fetch current name =
      ⟨.ret (some true), 1, successCommit current name, []⟩ := by
  unfold process_playlist MAX_RETRIES
  simp [processLoop, h]

theorem successCommit_eq {current : SMap} {n : String} {e : Entry}
    (h : lookupMap current n = some e) : successCommit current n = [(n, e)] := by
  unfold successCommit
  rw [h]

theorem mem_computeQueue_lookup {current localMap : SMap} {w : WorkItem}
    (hc : (current.map Prod.fst).Nodup) (hw : w ∈ computeQueue current localMap) :
    ∃ e, lookupMap current w.name = some e := by
  rcases List.mem_map.mp hw with ⟨p, hp, hpw⟩
  rcases List.mem_filter.mp hp with ⟨hpc, _⟩
  refine ⟨p.2, ?_⟩
  rw [← hpw]
  exact mem_lookupMap_of_nodup hc (by simpa using hpc)

theorem queueNames_nodup {current localMap : SMap}
    (hc : (current.map Prod.fst).Nodup) :
    ((computeQueue current localMap).map WorkItem.name).Nodup := by
  have hs : (computeQueue current localMap).map WorkItem.name
      = (current.filter (fun p => changed localMap p.1 p.2)).map Prod.fst := by
    unfold computeQueue
    rw [List.map_map]
    rfl
  rw [hs]
  exact List.Nodup.sublist (List.Sublist.map Prod.fst (List.filter_sublist current)) hc

/-- On a queue of items that all succeed at the first attempt, the batch
loop processes everything, never aborts, and commits the current
snapshot's entry for each item, in order. -/
theorem runQueue_success (fetch : String → Nat → FetchOutcome) (current : SMap) :
    ∀ q : List WorkItem, (∀ w ∈ q, fetch w.name 0 = .success) →
      (∀ w ∈ q, (lookupMap current w.name).isSome) →
      runQueue fetch current q =
        ⟨q.map WorkItem.name,
         q.map (fun w => (w.name, entryOf current w.name)),
         false,
         q.map (fun w => (w.name, ProcResult.ret (some true)))⟩ := by
  intro q
  induction q with
  | nil => intro _ _; rfl
  | cons w ws ih =>
    intro hs hl
    rcases Option.isSome_iff_exists.mp (hl w (List.mem_cons_self _ _)) with ⟨e, he⟩
    rw [runQueue, process_playlist_success _ current w.name (hs w (List.mem_cons_self _ _)),
      ih (fun x hx => hs x (List.mem_cons_of_mem _ hx))
        (fun x hx => hl x (List.mem_cons_of_mem _ hx)),
      successCommit_eq he]
    simp [entryOf, he]

theorem lookupMap_applyEvents_not_mem (m : SMap) (events : List (String × Entry))
    (n : String) (h : ∀ p ∈ events, p.1 ≠ n) :
    lookupMap (applyEvents m events) n = lookupMap m n := by
  induction events generalizing m with
  | nil => rfl
  | cons p rest ih =>
    rw [applyEvents, List.foldl_cons]
    exact (ih (setEntry m p.1 p.2) (fun r hr => h r (List.mem_cons_of_mem _ hr))).trans
      (lookupMap_setEntry_other m p.1 n p.2
        (fun hc => h p (List.mem_cons_self _ _) hc.symm))

theorem lookupMap_applyEvents_mem :
    ∀ (events : List (String × Entry)) (m : SMap) (n : String) (e : Entry),
      (events.map Prod.fst).Nodup → (n, e) ∈ events →
      lookupMap (applyEvents m events) n = some e := by
  intro events
  induction events with
  | nil => intro m n e _ h; simp at h
  | cons p rest ih =>
    intro m n e hnd hmem
    simp only [List.map_cons, List.nodup_cons] at hnd
    rcases List.mem_cons.mp hmem with h | h
    · subst h
      have hstep : lookupMap (applyEvents (setEntry m n e) rest) n = some e := by
        rw [lookupMap_applyEvents_not_mem (setEntry m n e) rest n
          (fun r hr hc => hnd.1 (hc ▸ List.mem_map.mpr ⟨r, hr, rfl⟩))]
        exact lookupMap_setEntry_self m n e
      exact hstep
    · exact ih (setEntry m p.1 p.2) n e hnd.2 h

/-- C5. Idempotence of sync: when every item of the (possibly shuffled)
queue computed from `current` against `localMap` is fetched successfully
— so each commit stores the current snapshot's entry (including its
`snapshot_id`) under the item's name — the map produced by those commits
makes a second diff against the same current snapshot empty. -/
theorem sync_idempotent (current localMap : SMap)
    (hc : (current.map Prod.fst).Nodup)
    (fetch : String → Nat → FetchOutcome) (q : List WorkItem)
    (hq : q.Perm (computeQueue current localMap))
    (hs : ∀ w ∈ q, fetch w.name 0 = .success) :
    computeQueue current
      (applyEvents localMap (runQueue fetch current q).commits) = [] := by
  have hl : ∀ w ∈ q, (lookupMap current w.name).isSome := by
    intro w hw
    rcases mem_computeQueue_lookup hc (hq.mem_iff.mp hw) with ⟨e, he⟩
    simp [he]
  rw [runQueue_success fetch current q hs hl]
  show computeQueue current
    (applyEvents localMap (q.map (fun w => (w.name, entryOf current w.name)))) = []
  have hnames : (q.map (fun w => (w.name, entryOf current w.name))).map Prod.fst
      = q.map WorkItem.name := by
    rw [List.map_map]
    rfl
  have hnd2 : ((q.map (fun w => (w.name, entryOf current w.name))).map Prod.fst).Nodup := by
    rw [hnames]
    exact ((hq.map WorkItem.name).nodup_iff).mpr (queueNames_nodup hc)
  have key : ∀ p ∈ current,
      changed (applyEvents localMap (q.map (fun w => (w.name, entryOf current w.name))))
        p.1 p.2 = false := by
    intro p hp
    have hlk : lookupMap current p.1 = some p.2 :=
      mem_lookupMap_of_nodup hc (by simpa using hp)
    by_cases hch : changed localMap p.1 p.2 = true
    · have hwq : (⟨p.1, p.2.url, p.2.track_count⟩ : WorkItem)
          ∈ computeQueue current localMap :=
        List.mem_map.mpr ⟨p, List.mem_filter.mpr ⟨hp, hch⟩, rfl⟩
      have hev : ((⟨p.1, p.2.url, p.2.track_count⟩ : WorkItem).name,
            entryOf current (⟨p.1, p.2.url, p.2.track_count⟩ : WorkItem).name)
          ∈ q.map (fun w => (w.name, entryOf current w.name)) :=
        List.mem_map.mpr ⟨⟨p.1, p.2.url, p.2.track_count⟩, hq.mem_iff.mpr hwq, rfl⟩
      have hef : entryOf current p.1 = p.2 := by
        simp [entryOf, hlk]
      rw [show (⟨p.1, p.2.url, p.2.track_count⟩ : WorkItem).name = p.1 from rfl, hef] at hev
      have hfin := lookupMap_applyEvents_mem _ localMap p.1 p.2 hnd2 hev
      simp [changed, hfin]
    · have hnm : ∀ r ∈ q.map (fun w => (w.name, entryOf current w.name)), r.1 ≠ p.1 := by
        intro r hr hceq
        rcases List.mem_map.mp hr with ⟨w, hwq2, hrw⟩
        have hwname : w.name = p.1 := by rw [← hceq, ← hrw]
        have hmemname : p.1 ∈ (computeQueue current localMap).map WorkItem.name :=
          List.mem_map.mpr ⟨w, hq.mem_iff.mp hwq2, hwname⟩
        rcases (mem_queueNames current localMap p.1).mp hmemname with ⟨e', he', hch'⟩
        have he2 : lookupMap current p.1 = some e' := mem_lookupMap_of_nodup hc he'
        rw [hlk] at he2
        injection he2 with hpe
        rw [← hpe] at hch'
        exact hch hch'
      have hfin := lookupMap_applyEvents_not_mem localMap
        (q.map (fun w => (w.name, entryOf current w.name))) p.1 hnm
      have hsame : changed
          (applyEvents localMap (q.map (fun w => (w.name, entryOf current w.name))))
          p.1 p.2 = changed localMap p.1 p.2 := by
        unfold changed
        rw [hfin]
      rw [hsame]
      rw [Bool.not_eq_true] at hch
      exact hch
  unfold computeQueue
  have hfilter : current.filter (fun p =>
      changed (applyEvents localMap (q.map (fun w => (w.name, entryOf current w.name))))
        p.1 p.2) = [] := by
    rw [List.filter_eq_nil_iff]
    intro a ha
    simp [key a ha]
  rw [hfilter]
  rfl

/-- Witness for C5: a changed and a new playlist both synced
successfully; the second diff is empty. -/
theorem sync_idempotent_witness :
    ((([("A", (⟨"uA", "s2", 1⟩ : Entry)), ("B", ⟨"uB", "s1", 2⟩)] : SMap).map Prod.fst).Nodup ∧
      (∀ w ∈ computeQueue [("A", ⟨"uA", "s2", 1⟩), ("B", ⟨"uB", "s1", 2⟩)]
          [("A", ⟨"uA", "s1", 1⟩)],
        (fun _ _ => FetchOutcome.success) (WorkItem.name w) 0 = .success)) ∧
    computeQueue [("A", ⟨"uA", "s2", 1⟩), ("B", ⟨"uB", "s1", 2⟩)]
      (applyEvents [("A", ⟨"uA", "s1", 1⟩)]
        (runQueue (fun _ _ => FetchOutcome.success)
          [("A", ⟨"uA", "s2", 1⟩), ("B", ⟨"uB", "s1", 2⟩)]
          (computeQueue [("A", ⟨"uA", "s2", 1⟩), ("B", ⟨"uB", "s1", 2⟩)]
            [("A", ⟨"uA", "s1", 1⟩)])).commits) = [] :=
  ⟨⟨by decide, by decide⟩,
    sync_idempotent [("A", ⟨"uA", "s2", 1⟩), ("B", ⟨"uB", "s1", 2⟩)]
      [("A", ⟨"uA", "s1", 1⟩)] (by decide) (fun _ _ => FetchOutcome.success)
      (computeQueue [("A", ⟨"uA", "s2", 1⟩), ("B", ⟨"uB", "s1", 2⟩)]
        [("A", ⟨"uA", "s1", 1⟩)])
      (List.Perm.refl _) (by decide)⟩

/-- Witness for C1 at a concrete pair of maps. -/
theorem queue_membership_criterion_witness :
    (([("A", (⟨"u", "s1", 1⟩ : Entry))].map Prod.fst).Nodup ∧
      lookupMap [("A", ⟨"u", "s1", 1⟩)] "A" = some ⟨"u", "s1", 1⟩) ∧
    (((("A" : String) ∈ (computeQueue [("A", ⟨"u", "s1", 1⟩)] []).map WorkItem.name) ↔
      (lookupMap [] "A" = none ∨
        ∃ p, lookupMap [] "A" = some p ∧ p.snapshot_id ≠ ("s1" : String))) ∧
    (∀ (f g : String → Entry → Entry),
      (∀ nm e2, (f nm e2).snapshot_id = e2.snapshot_id) →
      (∀ nm e2, (g nm e2).snapshot_id = e2.snapshot_id) →
      (computeQueue (mapEntries f [("A", ⟨"u", "s1", 1⟩)]) (mapEntries g [])).map WorkItem.name =
        (computeQueue [("A", ⟨"u", "s1", 1⟩)] []).map WorkItem.name)) :=
  ⟨⟨by decide, by decide⟩,
    queue_membership_criterion [("A", ⟨"u", "s1", 1⟩)] [] (by decide) "A" ⟨"u", "s1", 1⟩ (by decide)⟩
